import Mathlib

/-!
Verification of the membuf prebuffering stream cache (membuf.c).

The definitions below are a shallow embedding of the C source: blocks,
the shared frontier state, the block reconciliation done by the
prebuffer worker, the rewind-position walk, the reader-side wait loop,
the copy loop, and the Control/Seek logic.  Positions and sizes are
modelled as `Nat` (the C uses `uint64_t` positions and nonnegative
`int` block ranges; all quantities of interest are far below any
overflow boundary).  Return codes are `Int`.  Concurrency is modelled
by letting the reader-side functions observe an explicit list of
snapshots of the shared state (one per wakeup of the condition-variable
wait), and by passing the state observed under the offset lock
explicitly where a function re-reads it.
-/

/-- BUFFER_BLOCK_SIZE from membuf.c: 4 MiB. -/
def BUFFER_BLOCK_SIZE : Nat := 4 * 1024 * 1024

/-- BYTES_PER_READ from membuf.c: 16 KiB. -/
def BYTES_PER_READ : Nat := 16 * 1024

/-- SHORT_SEEK_RANGE from membuf.c: 64 KiB. -/
def SHORT_SEEK_RANGE : Nat := 64 * 1024

/-- VLC_SUCCESS return code (vlc_common.h, external to this repository). -/
def VLC_SUCCESS : Int := 0

/-- VLC_EGENERIC return code (vlc_common.h, external to this repository;
only its distinctness from `VLC_SUCCESS` matters here). -/
def VLC_EGENERIC : Int := -666

/-- buffer_block_t: the byte buffer itself is omitted; claims only concern
the `(i_data_begin, i_data_end)` range and the capacity `i_block_size`. -/
structure BufferBlock where
  i_block_size : Nat
  i_data_begin : Nat
  i_data_end : Nat
deriving Repr, DecidableEq

/-- stream_sys_t: the shared state of the cache (locks, condition
variables and the raw byte buffers are not represented). -/
structure StreamSys where
  i_stream_size : Nat
  b_can_fastseek : Bool
  b_can_seek : Bool
  b_error : Bool
  b_close : Bool
  block_array : List (Option BufferBlock)
  i_stream_offset : Nat
  i_prebuffer_offset : Nat
  b_buffered_eos : Bool
deriving Repr, DecidableEq

/-- One observation of the shared state as seen by a reader-side wait:
the fields re-read on each iteration of the `safe_WaitFillData` loop. -/
structure FillObs where
  i_prebuffer_offset : Nat
  b_buffered_eos : Bool
  b_error : Bool
  b_close : Bool
deriving Repr, DecidableEq

/-- Behaviour of the upstream source during the single
`stream_Seek`/`stream_Tell` pair performed by the Seek rewind path:
`seek_ret` is the value returned by `stream_Seek`, `tell_after` the
position reported by `stream_Tell` immediately afterwards. -/
structure SourceOracle where
  seek_ret : Int
  tell_after : Nat
deriving Repr, DecidableEq

/-- Result of a Control call: return code, resulting shared state,
the value stored through the out-parameter (if any), and a record of
the source-seek interaction performed (count and target). -/
structure ControlResult where
  ret : Int
  sys : StreamSys
  out_bool : Option Bool
  out_pos : Option Nat
  seek_calls : Nat
  seek_target : Option Nat
deriving Repr, DecidableEq

/-- Reconciliation of a block's `(i_data_begin, i_data_end)` range with
the fill offset, from PrebufferThread (membuf.c lines 498-528).  The
three branches of the C are kept verbatim; note that the last two
perform the same assignment. -/
def prepareBlock (i_block_offset : Nat) (b : BufferBlock) : BufferBlock :=
  if i_block_offset < b.i_data_begin then
    { b with i_data_begin := i_block_offset, i_data_end := i_block_offset }
  else if b.i_data_end ≤ i_block_offset then
    { b with i_data_end := i_block_offset }
  else
    /- i_block_offset < i_data_end: drop buffered tail (the C comment:
       "drop buffered data, rewind to request position") -/
    { b with i_data_end := i_block_offset }

/-- Loop of unsafe_FindRewindBufferedPosition (membuf.c lines 353-376),
walking a suffix of the block array. `idx` is the absolute block index of
the head of the suffix, `off` the offset inside that block, and `pos`
the running rewind position (`i_rewind_pos`). -/
def findRewindLoop : List (Option BufferBlock) → Nat → Nat → Nat → Nat
  | [], _, _, pos => pos
  | none :: _, _, _, pos => pos
  | some b :: rest, idx, off, pos =>
    if off < b.i_data_begin then pos
    else if b.i_data_end ≤ off then pos
    else if b.i_data_end < BUFFER_BLOCK_SIZE then idx * BUFFER_BLOCK_SIZE + b.i_data_end
    else findRewindLoop rest (idx + 1) 0 (idx * BUFFER_BLOCK_SIZE + b.i_data_end)

/-- The C function unsafe_FindRewindBufferedPosition (membuf.c lines
341-379): furthest
position reachable from `i_start_pos` through contiguously buffered
blocks. (The `unsafe_` prefix of the C name marks it as requiring the
offset lock; it is dropped here.) -/
def FindRewindBufferedPosition (blocks : List (Option BufferBlock)) (i_start_pos : Nat) : Nat :=
  let idx := i_start_pos / BUFFER_BLOCK_SIZE
  let off := i_start_pos % BUFFER_BLOCK_SIZE
  if blocks.length ≤ idx then i_start_pos
  else findRewindLoop (blocks.drop idx) idx off i_start_pos

/-- Modelled from the spec (§4.4 step 3): the walk that the spec
describes for `FindContiguousEnd` — starting at block `idx`, offset
`off`, if the block covers the walk position then move to the end of
the block, continuing into the next block only when that end equals
`BLOCK_SIZE`; otherwise stop at the current walk position. -/
def specWalk : List (Option BufferBlock) → Nat → Nat → Nat
  | [], idx, off => idx * BUFFER_BLOCK_SIZE + off
  | none :: _, idx, off => idx * BUFFER_BLOCK_SIZE + off
  | some b :: rest, idx, off =>
    if b.i_data_begin ≤ off ∧ off < b.i_data_end then
      if b.i_data_end = BUFFER_BLOCK_SIZE then specWalk rest (idx + 1) 0
      else idx * BUFFER_BLOCK_SIZE + b.i_data_end
    else idx * BUFFER_BLOCK_SIZE + off

/-- Does the block holding position `p` exist and cover `p`?  Mirrors the
per-position form of spec invariant 1 (block exists and its
`(begin, end)` covers `p mod BLOCK_SIZE`), together with the block-range
well-formedness `end ≤ capacity ≤ BLOCK_SIZE` of spec §3. -/
def coversAt (blocks : List (Option BufferBlock)) (p : Nat) : Bool :=
  match blocks[p / BUFFER_BLOCK_SIZE]? with
  | some (some b) =>
      decide (b.i_data_begin ≤ p % BUFFER_BLOCK_SIZE) &&
      decide (p % BUFFER_BLOCK_SIZE < b.i_data_end) &&
      decide (b.i_data_end ≤ b.i_block_size) &&
      decide (b.i_block_size ≤ BUFFER_BLOCK_SIZE)
  | _ => false

/-- Spec invariant 1 over a half-open range of positions. -/
def Covers (blocks : List (Option BufferBlock)) (lo hi : Nat) : Prop :=
  ∀ p, p < hi → lo ≤ p → coversAt blocks p = true

instance (blocks : List (Option BufferBlock)) (lo hi : Nat) : Decidable (Covers blocks lo hi) :=
  inferInstanceAs (Decidable (∀ p, p < hi → lo ≤ p → coversAt blocks p = true))

/-- Block-array well-formedness: every allocated block's `i_data_end`
is at most `BUFFER_BLOCK_SIZE` (spec §3: `end ≤ capacity ≤ BLOCK_SIZE`). -/
def blocksWF (blocks : List (Option BufferBlock)) : Bool :=
  blocks.all fun ob =>
    match ob with
    | some b => decide (b.i_data_end ≤ BUFFER_BLOCK_SIZE)
    | none => true

/-- Wait loop of safe_WaitFillData (membuf.c lines 755-788).  `s` is
`i_stream_offset` (written only by the calling reader thread, hence
constant during the call); each element of the list is the shared state
observed during one iteration of the `while` loop (the prebuffer-offset
snapshot re-read after each condition wait, together with the live
flags); an empty list means the reader would wait forever.  The final
`if( b_error || b_close ) return -1;` after the loop is evaluated
against the same observation that ended the loop. -/
def waitFillLoop (s : Nat) : Nat → List FillObs → Option Int
  | _, [] => none
  | i_read, o :: rest =>
    if o.i_prebuffer_offset < s + i_read then
      if o.b_error || o.b_close then some (-1)
      else if o.b_buffered_eos then
        /- clamp to the buffered length and leave the loop; the post-loop
           error check sees the same flags (false here).  `i_filled_len`
           is a signed int64 in the C, so the clamped value is `Int`. -/
        some (if (o.i_prebuffer_offset : Int) - (s : Int) < (i_read : Int) then
                (o.i_prebuffer_offset : Int) - (s : Int)
              else (i_read : Int))
      else waitFillLoop s i_read rest
    else
      if o.b_error || o.b_close then some (-1) else some (i_read : Int)

/-- safe_WaitFillData (membuf.c lines 718-789).  `entry` is the shared
state observed on entry: it serves both the double-checked
`b_buffered_eos` clamp at the top and the prebuffer-offset snapshot
taken just before the loop (the first loop iteration re-checks against
that same snapshot); `sched` provides the observations for the
subsequent wakeups.  `waitClampEos` is the clamp performed at the top
of the C function (lines 723-744) under the double-checked
`b_buffered_eos` test. -/
def waitClampEos (s : Nat) (entry : FillObs) (i_read : Nat) : Nat :=
  if entry.b_buffered_eos then
    if entry.i_prebuffer_offset ≤ s then 0
    else min i_read (entry.i_prebuffer_offset - s)
  else i_read

def safe_WaitFillData (s : Nat) (entry : FillObs) (sched : List FillObs) (i_read : Nat) : Option Int :=
  if waitClampEos s entry i_read = 0 then some 0
  else if s + waitClampEos s entry i_read ≤ entry.i_prebuffer_offset then
    some ((waitClampEos s entry i_read : Nat) : Int)
  else waitFillLoop s (waitClampEos s entry i_read) (entry :: sched)

/-- Copy loop of unsafe_fetchData (membuf.c lines 684-713), walking a
suffix of the block array.  `off` is the offset inside the current head
block, `acc` the bytes copied so far (`i_read_offset`), `left` the bytes
still wanted (`i_left_size`).  A failed `assert` is modelled as `none`. -/
def fetchLoop : List (Option BufferBlock) → Nat → Nat → Nat → Option Nat
  | [], _, acc, _ => some acc
  | none :: _, _, _, _ => none
  | some b :: rest, off, acc, left =>
    if b.i_data_begin ≤ off ∧ off < b.i_data_end ∧ b.i_data_end ≤ b.i_block_size then
      if left - min left (b.i_data_end - off) = 0 then some (acc + min left (b.i_data_end - off))
      else fetchLoop rest 0 (acc + min left (b.i_data_end - off)) (left - min left (b.i_data_end - off))
    else none

/-- The C function unsafe_fetchData (membuf.c lines 670-716): copy `i_read` bytes
starting at `i_stream_offset` out of the block array, returning the
number of bytes copied; `none` models a failed `assert`.  (The
`unsafe_` prefix of the C name is dropped here.) -/
def fetchData (blocks : List (Option BufferBlock)) (i_stream_offset i_prebuffer_offset : Nat)
    (i_read : Nat) : Option Nat :=
  if i_stream_offset + i_read ≤ i_prebuffer_offset then
    if i_stream_offset / BUFFER_BLOCK_SIZE < blocks.length then
      fetchLoop (blocks.drop (i_stream_offset / BUFFER_BLOCK_SIZE))
        (i_stream_offset % BUFFER_BLOCK_SIZE) 0 i_read
    else none
  else none

/-- Locked part of the STREAM_SET_POSITION handler (membuf.c lines
929-977), operating on the shared state `locked` observed once
`prebuffer_offset_lock` is held.  The source-seek interaction of the
rewind path is given by `src`. -/
def seekLocked (locked : StreamSys) (src : SourceOracle) (p : Nat) : ControlResult :=
  if p ≤ locked.i_prebuffer_offset ∧ p < FindRewindBufferedPosition locked.block_array p then
    { ret := VLC_SUCCESS, sys := { locked with i_stream_offset := p },
      out_bool := none, out_pos := none, seek_calls := 0, seek_target := none }
  else if p ≤ src.tell_after then
    { ret := src.seek_ret,
      sys := { locked with
               b_buffered_eos := false,
               i_prebuffer_offset := src.tell_after,
               i_stream_offset := p },
      out_bool := none, out_pos := none, seek_calls := 1,
      seek_target := some (FindRewindBufferedPosition locked.block_array p) }
  else if src.tell_after < locked.i_stream_offset then
    { ret := VLC_EGENERIC,
      sys := { locked with
               b_buffered_eos := false,
               i_prebuffer_offset := src.tell_after,
               i_stream_offset := src.tell_after },
      out_bool := none, out_pos := none, seek_calls := 1,
      seek_target := some (FindRewindBufferedPosition locked.block_array p) }
  else
    { ret := src.seek_ret,
      sys := { locked with b_buffered_eos := false, i_prebuffer_offset := src.tell_after },
      out_bool := none, out_pos := none, seek_calls := 1,
      seek_target := some (FindRewindBufferedPosition locked.block_array p) }

/-- STREAM_SET_POSITION handler (membuf.c lines 899-986).  `sys0` is the
state observed at entry (used by the short-seek test), `wentry`/`wsched`
drive the embedded `safe_WaitFillData`, and `locked` is the shared state
once the offset lock is acquired (equal to `sys0` in a sequential,
interference-free run).  `none` models the reader blocking forever in
the embedded wait. -/
def Control_SetPosition (sys0 : StreamSys) (wentry : FillObs) (wsched : List FillObs)
    (locked : StreamSys) (src : SourceOracle) (i_seek_pos : Nat) : Option ControlResult :=
  if sys0.b_can_seek = false then
    some { ret := VLC_EGENERIC, sys := sys0, out_bool := none, out_pos := none,
           seek_calls := 0, seek_target := none }
  else if sys0.i_prebuffer_offset < i_seek_pos ∧
      i_seek_pos < sys0.i_prebuffer_offset + SHORT_SEEK_RANGE then
    match safe_WaitFillData sys0.i_stream_offset wentry wsched
        (i_seek_pos - sys0.i_stream_offset) with
    | none => none
    | some r =>
      if r ≤ 0 then
        some { ret := r, sys := sys0, out_bool := none, out_pos := none,
               seek_calls := 0, seek_target := none }
      else some (seekLocked locked src i_seek_pos)
  else some (seekLocked locked src i_seek_pos)

/-- Queries recognised by Control; `OTHER` stands for any query id with
no case in the switch.  STREAM_GET_PREBUFFER_FINISHED is listed
explicitly so that its (absent) handling can be stated. -/
inductive StreamQuery where
  | CAN_FASTSEEK
  | CAN_SEEK
  | GET_POSITION
  | SET_POSITION (pos : Nat)
  | GET_SIZE
  | GET_CACHED_SIZE
  | GET_PREBUFFER_FINISHED
  | OTHER
deriving Repr, DecidableEq

/-- Control (membuf.c lines 874-1005).  The switch has cases for
CAN_FASTSEEK, CAN_SEEK, GET_POSITION, SET_POSITION, GET_SIZE and
GET_CACHED_SIZE only; every other query id — including
STREAM_GET_PREBUFFER_FINISHED — reaches the `default` label and returns
`VLC_EGENERIC`. -/
def Control (sys0 : StreamSys) (wentry : FillObs) (wsched : List FillObs)
    (locked : StreamSys) (src : SourceOracle) (q : StreamQuery) : Option ControlResult :=
  match q with
  | .CAN_FASTSEEK =>
    some { ret := VLC_SUCCESS, sys := sys0, out_bool := some sys0.b_can_fastseek,
           out_pos := none, seek_calls := 0, seek_target := none }
  | .CAN_SEEK =>
    some { ret := VLC_SUCCESS, sys := sys0, out_bool := some sys0.b_can_seek,
           out_pos := none, seek_calls := 0, seek_target := none }
  | .GET_POSITION =>
    some { ret := VLC_SUCCESS, sys := sys0, out_bool := none,
           out_pos := some sys0.i_stream_offset, seek_calls := 0, seek_target := none }
  | .SET_POSITION p => Control_SetPosition sys0 wentry wsched locked src p
  | .GET_SIZE =>
    some { ret := VLC_SUCCESS, sys := sys0, out_bool := none,
           out_pos := some sys0.i_stream_size, seek_calls := 0, seek_target := none }
  | .GET_CACHED_SIZE =>
    some { ret := VLC_SUCCESS, sys := sys0, out_bool := none,
           out_pos := some sys0.i_prebuffer_offset, seek_calls := 0, seek_target := none }
  | .GET_PREBUFFER_FINISHED =>
    some { ret := VLC_EGENERIC, sys := sys0, out_bool := none,
           out_pos := none, seek_calls := 0, seek_target := none }
  | .OTHER =>
    some { ret := VLC_EGENERIC, sys := sys0, out_bool := none,
           out_pos := none, seek_calls := 0, seek_target := none }

/-- Read (membuf.c lines 791-822).  `p_buffer_null` is true when the
caller passes a null buffer (discard read).  `none` models either the
reader blocking forever in the wait or a failed `assert` in
unsafe_fetchData. -/
def Read (sys : StreamSys) (wentry : FillObs) (wsched : List FillObs)
    (p_buffer_null : Bool) (i_read : Nat) : Option (Int × StreamSys) :=
  match safe_WaitFillData sys.i_stream_offset wentry wsched i_read with
  | none => none
  | some r =>
    if r ≤ 0 then some (r, sys)
    else if p_buffer_null then
      some (r, { sys with i_stream_offset := sys.i_stream_offset + r.toNat })
    else
      match fetchData sys.block_array sys.i_stream_offset sys.i_prebuffer_offset r.toNat with
      | none => none
      | some f =>
        if f = 0 then some (0, sys)
        else some ((f : Int), { sys with i_stream_offset := sys.i_stream_offset + f })

/-- Where the peek pointer returned by Peek points. -/
inductive PeekPtr where
  | nullp
  | intoBlock (idx off : Nat)
  | scratch
deriving Repr, DecidableEq

/-- Peek (membuf.c lines 824-872).  `pp_null` is true when the caller
passes a null out-pointer; `alloc_ok` is whether peek_Alloc succeeds on
the cross-block path.  Note the zero-copy single-block path returns the
original `i_peek` (line 863), while the scratch path returns the count
copied by unsafe_fetchData. -/
def Peek (sys : StreamSys) (wentry : FillObs) (wsched : List FillObs)
    (pp_null : Bool) (alloc_ok : Bool) (i_peek : Nat) : Option (Int × PeekPtr) :=
  match safe_WaitFillData sys.i_stream_offset wentry wsched i_peek with
  | none => none
  | some r =>
    if r ≤ 0 then some (r, .nullp)
    else if pp_null then some (r, .nullp)
    else
      /- assert( i_stream_offset + i_ready_data <= i_prebuffer_offset ) -/
      if sys.i_stream_offset + r.toNat ≤ sys.i_prebuffer_offset then
        if sys.i_stream_offset % BUFFER_BLOCK_SIZE + r.toNat ≤ BUFFER_BLOCK_SIZE then
          match sys.block_array[sys.i_stream_offset / BUFFER_BLOCK_SIZE]? with
          | some (some b) =>
            if b.i_data_begin ≤ sys.i_stream_offset % BUFFER_BLOCK_SIZE ∧
                sys.i_stream_offset % BUFFER_BLOCK_SIZE < b.i_data_end ∧
                b.i_data_end ≤ b.i_block_size then
              some ((i_peek : Int),
                .intoBlock (sys.i_stream_offset / BUFFER_BLOCK_SIZE)
                  (sys.i_stream_offset % BUFFER_BLOCK_SIZE))
            else none
          | _ => none
        else
          if alloc_ok then
            match fetchData sys.block_array sys.i_stream_offset sys.i_prebuffer_offset r.toNat with
            | none => none
            | some f => some ((f : Int), .scratch)
          else some (-1, .nullp)
      else none

/-- Park-on-EOS step of PrebufferThread (membuf.c lines 409-421): when
the frontier has reached the stream size, set `b_buffered_eos` (the
only place the flag becomes true). -/
def workerParkEos (sys : StreamSys) : StreamSys :=
  if sys.i_stream_size ≤ sys.i_prebuffer_offset then { sys with b_buffered_eos := true }
  else sys

/-- Capacity assigned to a freshly allocated block (membuf.c lines
464-480). -/
def blockSizeFor (i_stream_size i_block_index : Nat) : Nat :=
  if i_stream_size = 0 then 0
  else if i_block_index = (i_stream_size - 1) / BUFFER_BLOCK_SIZE then
    (i_stream_size - 1) % BUFFER_BLOCK_SIZE + 1
  else BUFFER_BLOCK_SIZE

/-- Grow the block array with empty slots up to and including `idx`
(membuf.c lines 451-454). -/
def growArray (blocks : List (Option BufferBlock)) (idx : Nat) : List (Option BufferBlock) :=
  blocks ++ List.replicate (idx + 1 - blocks.length) none

/-- Prepare-target-block step of PrebufferThread (membuf.c lines
442-532), successful-allocation path: grow the array, allocate the
block if absent, and reconcile its range with the frontier offset. -/
def workerPrepare (sys : StreamSys) : StreamSys :=
  let idx := sys.i_prebuffer_offset / BUFFER_BLOCK_SIZE
  let off := sys.i_prebuffer_offset % BUFFER_BLOCK_SIZE
  let arr := growArray sys.block_array idx
  let b : BufferBlock :=
    match arr[idx]? with
    | some (some b0) => b0
    | _ => { i_block_size := blockSizeFor sys.i_stream_size idx,
             i_data_begin := 0, i_data_end := 0 }
  { sys with block_array := arr.set idx (some (prepareBlock off b)) }

/-- Commit step of the fill loop of PrebufferThread (membuf.c lines
592-620), in the case where no concurrent seek moved the frontier:
advance the current block's `i_data_end` and `i_prebuffer_offset` by the
`i_read_ret` bytes just read. -/
def workerFillCommit (sys : StreamSys) (i_read_ret : Nat) : StreamSys :=
  let idx := sys.i_prebuffer_offset / BUFFER_BLOCK_SIZE
  let arr :=
    match sys.block_array[idx]? with
    | some (some b) =>
      sys.block_array.set idx (some { b with i_data_end := b.i_data_end + i_read_ret })
    | _ => sys.block_array
  { sys with block_array := arr,
             i_prebuffer_offset := sys.i_prebuffer_offset + i_read_ret }

/-- Spec invariant 3: `buffered_eos ⇒ prebuffer_offset ≥ size`. -/
def EosInv (sys : StreamSys) : Prop :=
  sys.b_buffered_eos = true → sys.i_stream_size ≤ sys.i_prebuffer_offset


/-! ## Helper lemmas -/

lemma blocksWF_mem {blocks : List (Option BufferBlock)} (h : blocksWF blocks = true)
    {b : BufferBlock} (hb : some b ∈ blocks) : b.i_data_end ≤ BUFFER_BLOCK_SIZE := by
  have := List.all_eq_true.mp h _ hb
  simpa using this

lemma coversAt_spec {blocks : List (Option BufferBlock)} {p : Nat}
    (h : coversAt blocks p = true) :
    ∃ b, blocks[p / BUFFER_BLOCK_SIZE]? = some (some b) ∧
      b.i_data_begin ≤ p % BUFFER_BLOCK_SIZE ∧
      p % BUFFER_BLOCK_SIZE < b.i_data_end ∧
      b.i_data_end ≤ b.i_block_size ∧
      b.i_block_size ≤ BUFFER_BLOCK_SIZE := by
  unfold coversAt at h
  match hg : blocks[p / BUFFER_BLOCK_SIZE]? with
  | some (some b) =>
    rw [hg] at h
    simp only [Bool.and_eq_true, decide_eq_true_eq] at h
    exact ⟨b, rfl, h.1.1.1, h.1.1.2, h.1.2, h.2⟩
  | some none => rw [hg] at h; simp at h
  | none => rw [hg] at h; simp at h

lemma BUFFER_BLOCK_SIZE_pos : 0 < BUFFER_BLOCK_SIZE := by norm_num [BUFFER_BLOCK_SIZE]

lemma pos_div_mod (p : Nat) :
    p / BUFFER_BLOCK_SIZE * BUFFER_BLOCK_SIZE + p % BUFFER_BLOCK_SIZE = p := by
  rw [Nat.mul_comm]; exact Nat.div_add_mod ..

lemma idx_of_pos (i off : Nat) (h : off < BUFFER_BLOCK_SIZE) :
    (i * BUFFER_BLOCK_SIZE + off) / BUFFER_BLOCK_SIZE = i := by
  rw [Nat.mul_comm i, Nat.mul_add_div BUFFER_BLOCK_SIZE_pos, Nat.div_eq_of_lt h]
  omega

lemma off_of_pos (i off : Nat) (h : off < BUFFER_BLOCK_SIZE) :
    (i * BUFFER_BLOCK_SIZE + off) % BUFFER_BLOCK_SIZE = off := by
  rw [Nat.mul_comm i, Nat.mul_add_mod, Nat.mod_eq_of_lt h]

/-- The rewind-walk of the C and the walk literally described by the
spec compute the same position, given well-formed block ranges and the
running-position invariant `pos = idx * BLOCK_SIZE + off`. -/
lemma findRewindLoop_eq_specWalk (bs : List (Option BufferBlock)) :
    ∀ (idx off : Nat),
      (∀ b : BufferBlock, some b ∈ bs → b.i_data_end ≤ BUFFER_BLOCK_SIZE) →
      findRewindLoop bs idx off (idx * BUFFER_BLOCK_SIZE + off) = specWalk bs idx off := by
  induction bs with
  | nil => intro idx off _; rfl
  | cons ob rest ih =>
    intro idx off hwf
    cases ob with
    | none => rfl
    | some b =>
      have hb : b.i_data_end ≤ BUFFER_BLOCK_SIZE := hwf b (List.mem_cons_self _ _)
      simp only [findRewindLoop, specWalk]
      by_cases h1 : off < b.i_data_begin
      · rw [if_pos h1, if_neg (by omega : ¬(b.i_data_begin ≤ off ∧ off < b.i_data_end))]
      · rw [if_neg h1]
        by_cases h2 : b.i_data_end ≤ off
        · rw [if_pos h2, if_neg (by omega : ¬(b.i_data_begin ≤ off ∧ off < b.i_data_end))]
        · rw [if_neg h2, if_pos (by omega : b.i_data_begin ≤ off ∧ off < b.i_data_end)]
          by_cases h3 : b.i_data_end < BUFFER_BLOCK_SIZE
          · rw [if_pos h3, if_neg (by omega : ¬b.i_data_end = BUFFER_BLOCK_SIZE)]
          · have hend : b.i_data_end = BUFFER_BLOCK_SIZE := by omega
            rw [if_neg h3, if_pos hend]
            have harith : idx * BUFFER_BLOCK_SIZE + b.i_data_end =
                (idx + 1) * BUFFER_BLOCK_SIZE + 0 := by rw [hend]; ring
            rw [harith]
            exact ih (idx + 1) 0 fun b' hb' => hwf b' (List.mem_cons_of_mem _ hb')

/-- The C rewind function agrees with the spec's walk everywhere (with
well-formed block ranges). -/
lemma FindRewind_eq_specWalk (blocks : List (Option BufferBlock)) (p : Nat)
    (hwf : blocksWF blocks = true) :
    FindRewindBufferedPosition blocks p =
      specWalk (blocks.drop (p / BUFFER_BLOCK_SIZE)) (p / BUFFER_BLOCK_SIZE)
        (p % BUFFER_BLOCK_SIZE) := by
  unfold FindRewindBufferedPosition
  by_cases hlen : blocks.length ≤ p / BUFFER_BLOCK_SIZE
  · rw [if_pos hlen, List.drop_eq_nil_of_le hlen]
    simp only [specWalk]
    exact (pos_div_mod p).symm
  · rw [if_neg hlen]
    have h1 : findRewindLoop (blocks.drop (p / BUFFER_BLOCK_SIZE)) (p / BUFFER_BLOCK_SIZE)
        (p % BUFFER_BLOCK_SIZE)
        (p / BUFFER_BLOCK_SIZE * BUFFER_BLOCK_SIZE + p % BUFFER_BLOCK_SIZE) =
        specWalk (blocks.drop (p / BUFFER_BLOCK_SIZE)) (p / BUFFER_BLOCK_SIZE)
          (p % BUFFER_BLOCK_SIZE) := by
      refine findRewindLoop_eq_specWalk _ _ _ fun b hb => ?_
      exact blocksWF_mem hwf (List.mem_of_mem_drop hb)
    rw [pos_div_mod p] at h1
    exact h1

/-- The spec walk never moves backward past the walk start. -/
lemma specWalk_ge (bs : List (Option BufferBlock)) :
    ∀ (idx off : Nat),
      (∀ b : BufferBlock, some b ∈ bs → b.i_data_end ≤ BUFFER_BLOCK_SIZE) →
      idx * BUFFER_BLOCK_SIZE + off ≤ specWalk bs idx off := by
  induction bs with
  | nil => intro idx off _; exact le_refl _
  | cons ob rest ih =>
    intro idx off hwf
    cases ob with
    | none => exact le_refl _
    | some b =>
      have hb : b.i_data_end ≤ BUFFER_BLOCK_SIZE := hwf b (List.mem_cons_self _ _)
      simp only [specWalk]
      by_cases h1 : b.i_data_begin ≤ off ∧ off < b.i_data_end
      · rw [if_pos h1]
        by_cases h2 : b.i_data_end = BUFFER_BLOCK_SIZE
        · rw [if_pos h2]
          have h3 := ih (idx + 1) 0 fun b' hb' => hwf b' (List.mem_cons_of_mem _ hb')
          have h4 : idx * BUFFER_BLOCK_SIZE + off ≤ (idx + 1) * BUFFER_BLOCK_SIZE + 0 := by
            have : off < BUFFER_BLOCK_SIZE := by omega
            nlinarith
          omega
        · rw [if_neg h2]; omega
      · rw [if_neg h1]

/-- If the block at `p` exists and covers `p`, the rewind position is
strictly beyond `p`. -/
lemma FindRewind_gt_of_covered {blocks : List (Option BufferBlock)} {p : Nat}
    (hwf : blocksWF blocks = true) (hcov : coversAt blocks p = true) :
    p < FindRewindBufferedPosition blocks p := by
  obtain ⟨b, hget, hbeg, hend, hbs, hcap⟩ := coversAt_spec hcov
  have hlt : p / BUFFER_BLOCK_SIZE < blocks.length := by
    by_contra hge
    rw [List.getElem?_eq_none (by omega)] at hget
    exact Option.noConfusion hget
  rw [FindRewind_eq_specWalk blocks p hwf]
  rw [List.drop_eq_getElem_cons hlt]
  have hhead : blocks[p / BUFFER_BLOCK_SIZE] = some b := by
    have := List.getElem?_eq_getElem hlt
    rw [hget] at this
    exact (Option.some.injEq _ _).mp this.symm
  rw [hhead]
  simp only [specWalk]
  rw [if_pos ⟨hbeg, hend⟩]
  by_cases h2 : b.i_data_end = BUFFER_BLOCK_SIZE
  · rw [if_pos h2]
    have h3 : ((p / BUFFER_BLOCK_SIZE) + 1) * BUFFER_BLOCK_SIZE + 0 ≤
        specWalk (blocks.drop (p / BUFFER_BLOCK_SIZE + 1)) (p / BUFFER_BLOCK_SIZE + 1) 0 := by
      refine specWalk_ge _ _ _ fun b' hb' => ?_
      exact blocksWF_mem hwf (List.mem_of_mem_drop hb')
    have h4 : p % BUFFER_BLOCK_SIZE < BUFFER_BLOCK_SIZE :=
      Nat.mod_lt _ BUFFER_BLOCK_SIZE_pos
    have h5 := pos_div_mod p
    nlinarith
  · rw [if_neg h2]
    have h5 := pos_div_mod p
    omega

/-! ## C1: reconciliation of a partially filled block -/

/-- Claim C1 as stated is false: with `begin = 0 ≤ offset = 1 ≤ end = 2`
the prepare-target-block step does **not** leave the pair unchanged; it
drops the buffered byte at offset 1 by setting `end := 1`. -/
theorem membuf_C1_counterexample :
    (0 : Nat) ≤ 1 ∧ (1 : Nat) ≤ 2 ∧
      prepareBlock 1 ⟨4194304, 0, 2⟩ ≠ (⟨4194304, 0, 2⟩ : BufferBlock) := by
  refine ⟨by norm_num, by norm_num, ?_⟩
  intro h
  have := congrArg BufferBlock.i_data_end h
  simp [prepareBlock] at this

/-- Amended claim C1: in the prepare-target-block step, for every target
block with `begin ≤ offset ≤ end`, the block's `begin` is left unchanged
and `end` is set to `offset` (discarding the buffered bytes in
`[offset, end)`); the pair is unchanged only in the boundary case
`offset = end`, where filling indeed resumes at `end`. -/
theorem membuf_C1_amended (off : Nat) (b : BufferBlock)
    (h1 : b.i_data_begin ≤ off) (h2 : off ≤ b.i_data_end) :
    prepareBlock off b = { b with i_data_end := off } ∧
      (off = b.i_data_end → prepareBlock off b = b) := by
  constructor
  · unfold prepareBlock
    rw [if_neg (by omega : ¬ off < b.i_data_begin)]
    by_cases h3 : b.i_data_end ≤ off
    · rw [if_pos h3]
    · rw [if_neg h3]
  · intro heq
    unfold prepareBlock
    rw [if_neg (by omega : ¬ off < b.i_data_begin)]
    rw [if_pos (by omega : b.i_data_end ≤ off)]
    cases b
    simp_all

theorem membuf_C1_witness :
    prepareBlock 3 ⟨4194304, 1, 7⟩ = (⟨4194304, 1, 3⟩ : BufferBlock) :=
  (membuf_C1_amended 3 ⟨4194304, 1, 7⟩ (by norm_num) (by norm_num)).1

/-! ## C2: Control and STREAM_GET_PREBUFFER_FINISHED -/

/-- Claim C2 describes the intended behaviour (also asserted by
membuf.c's own documentation block, lines 69-71), but the Control
switch has no case for STREAM_GET_PREBUFFER_FINISHED: the query falls
through to `default` and returns `VLC_EGENERIC` with no out-value, for
every state of the cache.  This theorem documents the divergence. -/
theorem membuf_C2_code_bug (sys0 : StreamSys) (wentry : FillObs) (wsched : List FillObs)
    (locked : StreamSys) (src : SourceOracle) :
    Control sys0 wentry wsched locked src .GET_PREBUFFER_FINISHED =
      some { ret := VLC_EGENERIC, sys := sys0, out_bool := none, out_pos := none,
             seek_calls := 0, seek_target := none } := rfl

/-! ## C6: FindRewindBufferedPosition -/

/-- Claim C6: the rewind walk returns `p` itself when the block at `p`
is absent or does not cover `p mod BLOCK_SIZE`, and otherwise returns
exactly the position computed by the walk the spec describes (moving to
the end of each covering block and crossing into the next block only
when that end equals `BLOCK_SIZE`). -/
theorem membuf_C6 (blocks : List (Option BufferBlock)) (p : Nat)
    (hwf : blocksWF blocks = true) :
    ((∀ b : BufferBlock, blocks[p / BUFFER_BLOCK_SIZE]? = some (some b) →
        ¬(b.i_data_begin ≤ p % BUFFER_BLOCK_SIZE ∧ p % BUFFER_BLOCK_SIZE < b.i_data_end)) →
      FindRewindBufferedPosition blocks p = p) ∧
      FindRewindBufferedPosition blocks p =
        specWalk (blocks.drop (p / BUFFER_BLOCK_SIZE)) (p / BUFFER_BLOCK_SIZE)
          (p % BUFFER_BLOCK_SIZE) := by
  refine ⟨?_, FindRewind_eq_specWalk blocks p hwf⟩
  intro hnc
  unfold FindRewindBufferedPosition
  by_cases hlen : blocks.length ≤ p / BUFFER_BLOCK_SIZE
  · rw [if_pos hlen]
  · rw [if_neg hlen]
    have hlt : p / BUFFER_BLOCK_SIZE < blocks.length := by omega
    rw [List.drop_eq_getElem_cons hlt]
    match hhead : blocks[p / BUFFER_BLOCK_SIZE] with
    | none => rfl
    | some b =>
      have hget : blocks[p / BUFFER_BLOCK_SIZE]? = some (some b) := by
        rw [List.getElem?_eq_getElem hlt, hhead]
      have hnb := hnc b hget
      simp only [findRewindLoop]
      by_cases h1 : p % BUFFER_BLOCK_SIZE < b.i_data_begin
      · rw [if_pos h1]
      · rw [if_neg h1, if_pos (by omega : b.i_data_end ≤ p % BUFFER_BLOCK_SIZE)]

theorem membuf_C6_witness :
    FindRewindBufferedPosition [some ⟨4194304, 0, 4194304⟩, some ⟨4194304, 0, 5⟩] 3 = 4194309 :=
  ((membuf_C6 [some ⟨4194304, 0, 4194304⟩, some ⟨4194304, 0, 5⟩] 3 (by decide)).2).trans
    (by decide)

/-! ## C3: safe_WaitFillData -/

lemma waitClampEos_le (s : Nat) (entry : FillObs) (n : Nat) : waitClampEos s entry n ≤ n := by
  unfold waitClampEos
  by_cases h1 : entry.b_buffered_eos
  · rw [if_pos h1]
    by_cases h2 : entry.i_prebuffer_offset ≤ s
    · rw [if_pos h2]; omega
    · rw [if_neg h2]; exact min_le_left _ _
  · rw [if_neg h1]

/-- Every terminating run of the wait loop returns −1, a value strictly
below the requested count (the EOS clamp), or exactly the requested
count — and in the last case some observed state had enough data. -/
lemma waitFillLoop_cases (s : Nat) :
    ∀ (sched : List FillObs) (m : Nat) (v : Int),
      waitFillLoop s m sched = some v →
      v = -1 ∨ v < (m : Int) ∨
        (v = (m : Int) ∧ ∃ o, o ∈ sched ∧ s + m ≤ o.i_prebuffer_offset) := by
  intro sched
  induction sched with
  | nil =>
    intro m v h
    exact absurd h (by simp [waitFillLoop])
  | cons o rest ih =>
    intro m v h
    simp only [waitFillLoop] at h
    by_cases h1 : o.i_prebuffer_offset < s + m
    · rw [if_pos h1] at h
      by_cases h2 : (o.b_error || o.b_close) = true
      · rw [if_pos h2] at h
        exact Or.inl (Option.some.inj h).symm
      · rw [if_neg h2] at h
        by_cases h3 : o.b_buffered_eos = true
        · rw [if_pos h3] at h
          have hc : (o.i_prebuffer_offset : Int) - (s : Int) < (m : Int) := by omega
          rw [if_pos hc] at h
          have := (Option.some.inj h).symm
          omega
        · rw [if_neg h3] at h
          rcases ih m v h with h4 | h4 | ⟨h4, o', ho', hle⟩
          · exact Or.inl h4
          · exact Or.inr (Or.inl h4)
          · exact Or.inr (Or.inr ⟨h4, o', List.mem_cons_of_mem _ ho', hle⟩)
    · rw [if_neg h1] at h
      by_cases h2 : (o.b_error || o.b_close) = true
      · rw [if_pos h2] at h
        exact Or.inl (Option.some.inj h).symm
      · rw [if_neg h2] at h
        refine Or.inr (Or.inr ⟨(Option.some.inj h).symm, o, List.mem_cons_self _ _, by omega⟩)

/-- Claim C3: behaviour of the wait-for-data step.
(a) If `buffered_eos` is observed at entry, the request is clamped to
`max(0, prebuffer_offset − stream_offset)` and returned directly (a
clamp to 0 returns 0, i.e. EOS).
(b) If `error` or `closing` is observed at any iteration of the wait
loop, the call returns −1.
(c) If `buffered_eos` (without error/closing) is observed while still
short of data, the request is clamped to `prebuffer_offset −
stream_offset` and the wait exits.
(d) If the call returns the full count `n > 0`, then some observed
state satisfied `stream_offset + n ≤ prebuffer_offset` — the call
waited exactly until the data was ready. -/
theorem membuf_C3 (s n : Nat) (entry : FillObs) (sched : List FillObs) :
    (entry.b_buffered_eos = true →
      safe_WaitFillData s entry sched n =
        some ((min n (entry.i_prebuffer_offset - s) : Nat) : Int)) ∧
    (∀ (m : Nat) (o : FillObs) (rest : List FillObs),
      (o.b_error = true ∨ o.b_close = true) →
      waitFillLoop s m (o :: rest) = some (-1)) ∧
    (∀ (m : Nat) (o : FillObs) (rest : List FillObs),
      o.b_error = false → o.b_close = false → o.b_buffered_eos = true →
      o.i_prebuffer_offset < s + m →
      waitFillLoop s m (o :: rest) =
        some ((o.i_prebuffer_offset : Int) - (s : Int))) ∧
    (safe_WaitFillData s entry sched n = some ((n : Int)) → 0 < n →
      ∃ o, o ∈ entry :: sched ∧ s + n ≤ o.i_prebuffer_offset) := by
  refine ⟨?_, ?_, ?_, ?_⟩
  · intro heos
    unfold safe_WaitFillData waitClampEos
    rw [if_pos heos]
    by_cases h1 : entry.i_prebuffer_offset ≤ s
    · rw [if_pos h1]
      rw [if_pos rfl]
      have : entry.i_prebuffer_offset - s = 0 := by omega
      rw [this]
      simp
    · rw [if_neg h1]
      by_cases h2 : min n (entry.i_prebuffer_offset - s) = 0
      · rw [if_pos h2, h2]
        simp
      · rw [if_neg h2]
        rw [if_pos (by omega : s + min n (entry.i_prebuffer_offset - s) ≤
          entry.i_prebuffer_offset)]
  · intro m o rest herr
    have h2 : (o.b_error || o.b_close) = true := by
      rcases herr with h | h <;> simp [h]
    simp only [waitFillLoop]
    by_cases h1 : o.i_prebuffer_offset < s + m
    · rw [if_pos h1, if_pos h2]
    · rw [if_neg h1, if_pos h2]
  · intro m o rest herr hcl heos hlt
    have h2 : (o.b_error || o.b_close) = false := by simp [herr, hcl]
    simp only [waitFillLoop]
    rw [if_pos hlt, if_neg (by simp [h2]), if_pos heos]
    rw [if_pos (by omega : (o.i_prebuffer_offset : Int) - (s : Int) < (m : Int))]
  · intro h hn
    unfold safe_WaitFillData at h
    by_cases hc0 : waitClampEos s entry n = 0
    · rw [if_pos hc0] at h
      have := Option.some.inj h
      omega
    · rw [if_neg hc0] at h
      have hcle : waitClampEos s entry n ≤ n := waitClampEos_le s entry n
      by_cases h1 : s + waitClampEos s entry n ≤ entry.i_prebuffer_offset
      · rw [if_pos h1] at h
        have hcn : waitClampEos s entry n = n := by
          have := Option.some.inj h
          omega
        exact ⟨entry, List.mem_cons_self _ _, by omega⟩
      · rw [if_neg h1] at h
        rcases waitFillLoop_cases s (entry :: sched) (waitClampEos s entry n) _ h with
          h4 | h4 | ⟨_, o', ho', hle⟩
        · omega
        · omega
        · have hcn : waitClampEos s entry n = n := by omega
          exact ⟨o', ho', by omega⟩

theorem membuf_C3_witness :
    safe_WaitFillData 0 ⟨4, true, false, false⟩ [] 10 =
      some ((min 10 (4 - 0) : Nat) : Int) :=
  (membuf_C3 0 10 ⟨4, true, false, false⟩ []).1 rfl

/-! ## C10: unsafe_fetchData safety and completeness -/

/-- Main induction for the copy loop: if every position in the range
being copied is covered (spec invariant 1), every visited block exists,
every assertion guard holds, and the loop copies exactly `left` more
bytes.  `i` is the absolute index of the block at the head of the
suffix, `off` the offset inside it, `acc` the bytes already copied. -/
lemma fetchLoop_complete (blocks : List (Option BufferBlock)) (s pre : Nat)
    (hcov : Covers blocks s pre) :
    ∀ (left : Nat), ∀ (i off acc : Nat),
      0 < left →
      i * BUFFER_BLOCK_SIZE + off = s + acc →
      off < BUFFER_BLOCK_SIZE →
      s + acc + left ≤ pre →
      fetchLoop (blocks.drop i) off acc left = some (acc + left) := by
  intro left
  induction left using Nat.strong_induction_on with
  | _ left ih =>
    intro i off acc hl hpos hoff hbound
    have hcur : coversAt blocks (i * BUFFER_BLOCK_SIZE + off) = true := by
      refine hcov _ (by omega) (by omega)
    obtain ⟨b, hget, hbeg, hend, hbs, hcap⟩ := coversAt_spec hcur
    rw [idx_of_pos i off hoff] at hget
    rw [off_of_pos i off hoff] at hbeg hend
    have hlen : i < blocks.length := by
      by_contra hge
      rw [List.getElem?_eq_none (by omega)] at hget
      exact Option.noConfusion hget
    have hdrop : blocks.drop i = some b :: blocks.drop (i + 1) := by
      rw [List.drop_eq_getElem_cons hlen]
      have h1 := List.getElem?_eq_getElem hlen
      rw [hget] at h1
      rw [Option.some.inj h1.symm]
    rw [hdrop]
    simp only [fetchLoop]
    rw [if_pos ⟨hbeg, hend, hbs⟩]
    by_cases hstep : left - min left (b.i_data_end - off) = 0
    · rw [if_pos hstep]
      have hminl : min left (b.i_data_end - off) = left := by omega
      rw [hminl]
    · rw [if_neg hstep]
      have hminr : min left (b.i_data_end - off) = b.i_data_end - off := by omega
      rw [hminr]
      have hnext : coversAt blocks (i * BUFFER_BLOCK_SIZE + b.i_data_end) = true := by
        refine hcov _ (by omega) (by omega)
      have hendBS : b.i_data_end = BUFFER_BLOCK_SIZE := by
        by_contra hne
        have hlt2 : b.i_data_end < BUFFER_BLOCK_SIZE := by omega
        obtain ⟨b2, hget2, hbeg2, hend2, _, _⟩ := coversAt_spec hnext
        rw [idx_of_pos i _ hlt2] at hget2
        rw [off_of_pos i _ hlt2] at hend2
        rw [hget] at hget2
        have hb2 : b = b2 := Option.some.inj (Option.some.inj hget2)
        rw [← hb2] at hend2
        omega
      have hexp : (i + 1) * BUFFER_BLOCK_SIZE = i * BUFFER_BLOCK_SIZE + BUFFER_BLOCK_SIZE := by
        ring
      have harith : (i + 1) * BUFFER_BLOCK_SIZE + 0 = s + (acc + (b.i_data_end - off)) := by
        omega
      have hrec := ih (left - (b.i_data_end - off)) (by omega) (i + 1) 0
        (acc + (b.i_data_end - off)) (by omega) harith BUFFER_BLOCK_SIZE_pos (by omega)
      rw [hrec]
      congr 1
      omega

/-- unsafe_fetchData returns exactly the requested count when the wait
postcondition and spec invariant 1 hold. -/
lemma fetchData_complete (blocks : List (Option BufferBlock)) (s pre n : Nat)
    (hn : 0 < n) (hle : s + n ≤ pre) (hcov : Covers blocks s pre) :
    fetchData blocks s pre n = some n := by
  unfold fetchData
  rw [if_pos hle]
  have hc0 : coversAt blocks s = true := hcov s (by omega) (le_refl s)
  obtain ⟨b, hget, _⟩ := coversAt_spec hc0
  have hlen : s / BUFFER_BLOCK_SIZE < blocks.length := by
    by_contra hge
    rw [List.getElem?_eq_none (by omega)] at hget
    exact Option.noConfusion hget
  rw [if_pos hlen]
  have hpos : s / BUFFER_BLOCK_SIZE * BUFFER_BLOCK_SIZE + s % BUFFER_BLOCK_SIZE = s + 0 := by
    rw [pos_div_mod]
    omega
  have := fetchLoop_complete blocks s pre hcov n (s / BUFFER_BLOCK_SIZE)
    (s % BUFFER_BLOCK_SIZE) 0 hn hpos (Nat.mod_lt _ BUFFER_BLOCK_SIZE_pos) (by omega)
  simpa using this

/-- Claim C10: for every call to unsafe_fetchData with `n > 0` and
`stream_offset + n ≤ prebuffer_offset`, given spec invariant 1 for the
range `[stream_offset, prebuffer_offset)` (the postcondition
established by safe_WaitFillData together with the system invariant),
every block visited by the copy loop exists, every in-block offset
satisfies `begin ≤ offset < end ≤ block_size`, so all assertions hold
and the function returns exactly `n`. -/
theorem membuf_C10 (blocks : List (Option BufferBlock)) (s pre n : Nat)
    (hn : 0 < n) (hle : s + n ≤ pre) (hcov : Covers blocks s pre) :
    fetchData blocks s pre n = some n :=
  fetchData_complete blocks s pre n hn hle hcov

theorem membuf_C10_witness :
    fetchData [some ⟨4194304, 0, 8⟩] 0 8 8 = some 8 :=
  membuf_C10 [some ⟨4194304, 0, 8⟩] 0 8 8 (by decide) (by decide) (by decide)

/-! ## C8: the buffered_eos invariant -/

/-- The locked Seek path preserves `buffered_eos ⇒ prebuffer_offset ≥ size`
(the rewind branches clear the flag outright). -/
lemma seekLocked_EosInv (locked : StreamSys) (src : SourceOracle) (p : Nat)
    (hinv : EosInv locked) : EosInv (seekLocked locked src p).sys := by
  unfold seekLocked
  by_cases h1 : p ≤ locked.i_prebuffer_offset ∧
      p < FindRewindBufferedPosition locked.block_array p
  · rw [if_pos h1]
    exact hinv
  · rw [if_neg h1]
    by_cases h2 : p ≤ src.tell_after
    · rw [if_pos h2]
      intro heos
      exact absurd heos (by simp)
    · rw [if_neg h2]
      by_cases h3 : src.tell_after < locked.i_stream_offset
      · rw [if_pos h3]
        intro heos
        exact absurd heos (by simp)
      · rw [if_neg h3]
        intro heos
        exact absurd heos (by simp)

/-- Claim C8 as stated also asserts the equivalence
`buffered_eos ⇔ prebuffer_offset ≥ size` at every moment the offset
lock is free.  That fails between the worker's fill-commit that brings
the frontier up to `size` and its subsequent park step: here a state
satisfying the equivalence (frontier at 16 KiB of a 32 KiB stream) is
taken by one fill-commit of 16 KiB to a state with
`prebuffer_offset = size` and `buffered_eos` still false, with the
offset lock free. -/
theorem membuf_C8_counterexample :
    ((⟨32768, false, true, false, false, [some ⟨4194304, 0, 16384⟩], 0, 16384, false⟩ :
        StreamSys).b_buffered_eos = true ↔
      (32768 : Nat) ≤ 16384) ∧
    ¬(((workerFillCommit
          ⟨32768, false, true, false, false, [some ⟨4194304, 0, 16384⟩], 0, 16384, false⟩
          16384).b_buffered_eos = true) ↔
        ((workerFillCommit
          ⟨32768, false, true, false, false, [some ⟨4194304, 0, 16384⟩], 0, 16384, false⟩
          16384).i_stream_size ≤
         (workerFillCommit
          ⟨32768, false, true, false, false, [some ⟨4194304, 0, 16384⟩], 0, 16384, false⟩
          16384).i_prebuffer_offset)) := by
  decide

/-- Amended claim C8: the implication `buffered_eos ⇒ prebuffer_offset ≥
size` (spec invariant 3) is preserved by every modelled operation: the
worker's park step (the only place the flag is set), its
prepare-target-block step, its fill-commit step (the frontier only
advances), Read, and every Control query including SET_POSITION (whose
rewind path clears the flag).  The full equivalence fails transiently
(see the counterexample), so only the implication is an invariant. -/
theorem membuf_C8_amended :
    (∀ sys : StreamSys, EosInv sys → EosInv (workerParkEos sys)) ∧
    (∀ sys : StreamSys, EosInv sys → EosInv (workerPrepare sys)) ∧
    (∀ (sys : StreamSys) (r : Nat), EosInv sys → EosInv (workerFillCommit sys r)) ∧
    (∀ (sys : StreamSys) (wentry : FillObs) (wsched : List FillObs) (bnull : Bool)
        (n : Nat) (r : Int) (sys2 : StreamSys),
      Read sys wentry wsched bnull n = some (r, sys2) → EosInv sys → EosInv sys2) ∧
    (∀ (sys0 : StreamSys) (wentry : FillObs) (wsched : List FillObs) (locked : StreamSys)
        (src : SourceOracle) (q : StreamQuery) (res : ControlResult),
      Control sys0 wentry wsched locked src q = some res →
      EosInv sys0 → EosInv locked → EosInv res.sys) := by
  refine ⟨?_, ?_, ?_, ?_, ?_⟩
  · intro sys hinv
    unfold workerParkEos
    by_cases h : sys.i_stream_size ≤ sys.i_prebuffer_offset
    · rw [if_pos h]
      intro _
      exact h
    · rw [if_neg h]
      exact hinv
  · intro sys hinv
    unfold workerPrepare
    intro heos
    exact hinv heos
  · intro sys r hinv
    unfold workerFillCommit
    intro heos
    exact le_trans (hinv heos) (Nat.le_add_right _ _)
  · intro sys wentry wsched bnull n r sys2 h hinv
    unfold Read at h
    split at h
    · exact Option.noConfusion h
    · split at h
      · have h4 : _ = sys2 := congrArg Prod.snd (Option.some.inj h)
        rw [← h4]
        exact hinv
      · split at h
        · have h4 : _ = sys2 := congrArg Prod.snd (Option.some.inj h)
          rw [← h4]
          exact hinv
        · split at h
          · exact Option.noConfusion h
          · split at h
            · have h4 : _ = sys2 := congrArg Prod.snd (Option.some.inj h)
              rw [← h4]
              exact hinv
            · have h4 : _ = sys2 := congrArg Prod.snd (Option.some.inj h)
              rw [← h4]
              exact hinv
  · intro sys0 wentry wsched locked src q res h hinv0 hinvL
    cases q with
    | CAN_FASTSEEK => rw [← Option.some.inj h]; exact hinv0
    | CAN_SEEK => rw [← Option.some.inj h]; exact hinv0
    | GET_POSITION => rw [← Option.some.inj h]; exact hinv0
    | GET_SIZE => rw [← Option.some.inj h]; exact hinv0
    | GET_CACHED_SIZE => rw [← Option.some.inj h]; exact hinv0
    | GET_PREBUFFER_FINISHED => rw [← Option.some.inj h]; exact hinv0
    | OTHER => rw [← Option.some.inj h]; exact hinv0
    | SET_POSITION p =>
      have hred : Control sys0 wentry wsched locked src (.SET_POSITION p) =
          Control_SetPosition sys0 wentry wsched locked src p := rfl
      rw [hred] at h
      unfold Control_SetPosition at h
      split at h
      · rw [← Option.some.inj h]
        exact hinv0
      · split at h
        · split at h
          · exact Option.noConfusion h
          · split at h
            · rw [← Option.some.inj h]
              exact hinv0
            · rw [← Option.some.inj h]
              exact seekLocked_EosInv locked src p hinvL
        · rw [← Option.some.inj h]
          exact seekLocked_EosInv locked src p hinvL

theorem membuf_C8_witness :
    EosInv (workerParkEos ⟨100, false, true, false, false, [], 0, 100, true⟩) :=
  membuf_C8_amended.1 ⟨100, false, true, false, false, [], 0, 100, true⟩
    (by intro _; norm_num)

/-! ## C4: short-forward seek -/

/-- Claim C4 as stated is false: a short-forward seek that the producer
serves completely can still call the underlying source seek.  Here
`p = 16384`, the frontier starts at 0 and stops at exactly `p` when the
wait completes; the locked re-check then finds the block at `p` not
covering `p` (its `end` is exactly `p mod BLOCK_SIZE`), so the rewind
branch runs and the source seek is called once. -/
theorem membuf_C4_counterexample :
    (Control_SetPosition
        ⟨10485760, false, true, false, false, [], 0, 0, false⟩
        ⟨0, false, false, false⟩
        [⟨16384, false, false, false⟩]
        ⟨10485760, false, true, false, false, [some ⟨4194304, 0, 16384⟩], 0, 16384, false⟩
        ⟨0, 16384⟩
        16384).map ControlResult.seek_calls = some 1 := by
  decide

/-- Amended claim C4: for every seek target `p` on a seekable source
with `prebuffer_offset < p < prebuffer_offset + SHORT_SEEK_WINDOW`,
Seek(p) first waits for `p − stream_offset` bytes from the running
producer; provided the state it then inspects under the offset lock
still has `p ≤ prebuffer_offset` **and** the block at `p` covers `p`
(true in particular whenever the frontier has advanced strictly past
`p`, by spec invariant 1), the seek succeeds, sets `stream_offset := p`
and performs no source seek.  (If the frontier stopped exactly at `p`,
the rewind path runs instead and does seek the source — see the
counterexample.) -/
theorem membuf_C4_amended (sys0 locked : StreamSys) (wentry : FillObs) (wsched : List FillObs)
    (src : SourceOracle) (p : Nat) (r : Int)
    (hseek : sys0.b_can_seek = true)
    (hlo : sys0.i_prebuffer_offset < p)
    (hhi : p < sys0.i_prebuffer_offset + SHORT_SEEK_RANGE)
    (hwait : safe_WaitFillData sys0.i_stream_offset wentry wsched
      (p - sys0.i_stream_offset) = some r)
    (hr : 0 < r)
    (hwf : blocksWF locked.block_array = true)
    (hcov : coversAt locked.block_array p = true)
    (hple : p ≤ locked.i_prebuffer_offset) :
    Control_SetPosition sys0 wentry wsched locked src p =
      some { ret := VLC_SUCCESS, sys := { locked with i_stream_offset := p },
             out_bool := none, out_pos := none, seek_calls := 0, seek_target := none } := by
  unfold Control_SetPosition
  rw [if_neg (by simp [hseek])]
  rw [if_pos ⟨hlo, hhi⟩]
  simp only [hwait]
  rw [if_neg (by omega : ¬ r ≤ 0)]
  unfold seekLocked
  rw [if_pos ⟨hple, FindRewind_gt_of_covered hwf hcov⟩]

theorem membuf_C4_witness :
    Control_SetPosition
        ⟨10485760, false, true, false, false, [], 0, 0, false⟩
        ⟨0, false, false, false⟩
        [⟨32768, false, false, false⟩]
        ⟨10485760, false, true, false, false, [some ⟨4194304, 0, 32768⟩], 0, 32768, false⟩
        ⟨0, 32768⟩
        16384 =
      some { ret := VLC_SUCCESS,
             sys := ⟨10485760, false, true, false, false, [some ⟨4194304, 0, 32768⟩],
                     16384, 32768, false⟩,
             out_bool := none, out_pos := none, seek_calls := 0, seek_target := none } :=
  membuf_C4_amended
    ⟨10485760, false, true, false, false, [], 0, 0, false⟩
    ⟨10485760, false, true, false, false, [some ⟨4194304, 0, 32768⟩], 0, 32768, false⟩
    ⟨0, false, false, false⟩
    [⟨32768, false, false, false⟩]
    ⟨0, 32768⟩ 16384 16384
    rfl (by decide) (by decide) (by decide) (by decide) (by decide) (by decide) (by decide)

/-! ## C5: the rewind path of Seek -/

/-- Claim C5 as stated is false in one point: when `p ≤ actual` the
code returns the status of the underlying `stream_Seek`, not
unconditionally success.  Here the source seek fails (returns
`VLC_EGENERIC`) yet `tell()` reports 10 ≥ p = 5: the cache sets
`stream_offset := 5` as the claim says, but Seek returns the error. -/
theorem membuf_C5_counterexample :
    (Control_SetPosition ⟨1000, false, true, false, false, [], 0, 100, false⟩
        ⟨100, false, false, false⟩ [] ⟨1000, false, true, false, false, [], 0, 100, false⟩
        ⟨-666, 10⟩ 5).map (fun res => (res.ret, res.sys.i_stream_offset)) =
      some (VLC_EGENERIC, 5) ∧ VLC_EGENERIC ≠ VLC_SUCCESS := by
  decide

/-- Amended claim C5: every Seek(p) that does not land inside
already-buffered contiguous data seeks the source to `rewind_target =
FindRewind(p)`, sets `prebuffer_offset := actual` (the position
reported by `tell()`), clears `buffered_eos`, and then: if `p ≤ actual`
it sets `stream_offset := p` and returns the status of the underlying
source seek (success whenever that seek succeeded); else if
`stream_offset > actual` it sets `stream_offset := actual` and returns
failure; and in no case does a failed seek touch the latched error
flag. -/
theorem membuf_C5_amended (locked : StreamSys) (src : SourceOracle) (p : Nat)
    (hnofast : ¬(p ≤ locked.i_prebuffer_offset ∧
      p < FindRewindBufferedPosition locked.block_array p)) :
    (seekLocked locked src p).seek_calls = 1 ∧
    (seekLocked locked src p).seek_target =
      some (FindRewindBufferedPosition locked.block_array p) ∧
    (seekLocked locked src p).sys.i_prebuffer_offset = src.tell_after ∧
    (seekLocked locked src p).sys.b_buffered_eos = false ∧
    (seekLocked locked src p).sys.b_error = locked.b_error ∧
    (p ≤ src.tell_after →
      (seekLocked locked src p).sys.i_stream_offset = p ∧
      (seekLocked locked src p).ret = src.seek_ret) ∧
    (src.tell_after < p → src.tell_after < locked.i_stream_offset →
      (seekLocked locked src p).sys.i_stream_offset = src.tell_after ∧
      (seekLocked locked src p).ret = VLC_EGENERIC) ∧
    (src.seek_ret = VLC_SUCCESS → p ≤ src.tell_after →
      (seekLocked locked src p).ret = VLC_SUCCESS) := by
  unfold seekLocked
  rw [if_neg hnofast]
  by_cases h2 : p ≤ src.tell_after
  · rw [if_pos h2]
    exact ⟨rfl, rfl, rfl, rfl, rfl, fun _ => ⟨rfl, rfl⟩,
      fun h3 _ => absurd h2 (by omega), fun hs _ => hs⟩
  · rw [if_neg h2]
    by_cases h3 : src.tell_after < locked.i_stream_offset
    · rw [if_pos h3]
      exact ⟨rfl, rfl, rfl, rfl, rfl, fun h => absurd h h2,
        fun _ _ => ⟨rfl, rfl⟩, fun _ h => absurd h h2⟩
    · rw [if_neg h3]
      exact ⟨rfl, rfl, rfl, rfl, rfl, fun h => absurd h h2,
        fun _ h => absurd h h3, fun _ h => absurd h h2⟩

theorem membuf_C5_witness :
    (seekLocked ⟨1000, false, true, false, false, [], 0, 100, false⟩ ⟨0, 10⟩ 5).seek_calls = 1 ∧
    (seekLocked ⟨1000, false, true, false, false, [], 0, 100, false⟩ ⟨0, 10⟩ 5).sys.b_buffered_eos
      = false :=
  ⟨(membuf_C5_amended ⟨1000, false, true, false, false, [], 0, 100, false⟩ ⟨0, 10⟩ 5
      (by decide)).1,
   (membuf_C5_amended ⟨1000, false, true, false, false, [], 0, 100, false⟩ ⟨0, 10⟩ 5
      (by decide)).2.2.2.1⟩

/-! ## C7: Seek to the current position -/

/-- Claim C7 as stated is false: at buffered EOS with `stream_offset =
prebuffer_offset = size`, `Seek(stream_offset)` does not land in the
fast path (the walk returns `p` itself), so the rewind path runs: it
returns success but clears `buffered_eos` — an observable change. -/
theorem membuf_C7_counterexample :
    (⟨4194304, false, true, false, false, [some ⟨4194304, 0, 4194304⟩],
        4194304, 4194304, true⟩ : StreamSys).b_buffered_eos = true ∧
    (Control_SetPosition
        ⟨4194304, false, true, false, false, [some ⟨4194304, 0, 4194304⟩],
          4194304, 4194304, true⟩
        ⟨4194304, true, false, false⟩ []
        ⟨4194304, false, true, false, false, [some ⟨4194304, 0, 4194304⟩],
          4194304, 4194304, true⟩
        ⟨0, 4194304⟩ 4194304).map (fun res => (res.ret, res.sys.b_buffered_eos)) =
      some (VLC_SUCCESS, false) := by
  decide

/-- Amended claim C7: in every state of a seekable cache in which
`stream_offset ≤ prebuffer_offset` and the block at `stream_offset`
exists and covers it (spec invariant 1 guarantees this whenever
`stream_offset < prebuffer_offset`), `Seek(stream_offset)` returns
success and changes nothing observable: the resulting state equals the
original and no source seek is performed.  (When `stream_offset =
prebuffer_offset`, e.g. at buffered EOS, the rewind path runs instead
and may clear `buffered_eos` — see the counterexample.) -/
theorem membuf_C7_amended (locked : StreamSys) (wentry : FillObs) (wsched : List FillObs)
    (src : SourceOracle)
    (hseek : locked.b_can_seek = true)
    (hsp : locked.i_stream_offset ≤ locked.i_prebuffer_offset)
    (hwf : blocksWF locked.block_array = true)
    (hcov : coversAt locked.block_array locked.i_stream_offset = true) :
    Control_SetPosition locked wentry wsched locked src locked.i_stream_offset =
      some { ret := VLC_SUCCESS, sys := locked, out_bool := none, out_pos := none,
             seek_calls := 0, seek_target := none } := by
  unfold Control_SetPosition
  rw [if_neg (by simp [hseek])]
  rw [if_neg (by omega : ¬(locked.i_prebuffer_offset < locked.i_stream_offset ∧
    locked.i_stream_offset < locked.i_prebuffer_offset + SHORT_SEEK_RANGE))]
  unfold seekLocked
  rw [if_pos ⟨hsp, FindRewind_gt_of_covered hwf hcov⟩]

theorem membuf_C7_witness :
    Control_SetPosition
        ⟨1000, false, true, false, false, [some ⟨4194304, 0, 50⟩], 10, 50, false⟩
        ⟨0, false, false, false⟩ [] 
        ⟨1000, false, true, false, false, [some ⟨4194304, 0, 50⟩], 10, 50, false⟩
        ⟨0, 0⟩ 10 =
      some { ret := VLC_SUCCESS,
             sys := ⟨1000, false, true, false, false, [some ⟨4194304, 0, 50⟩], 10, 50, false⟩,
             out_bool := none, out_pos := none, seek_calls := 0, seek_target := none } :=
  membuf_C7_amended
    ⟨1000, false, true, false, false, [some ⟨4194304, 0, 50⟩], 10, 50, false⟩
    ⟨0, false, false, false⟩ [] ⟨0, 0⟩
    rfl (by decide) (by decide) (by decide)

/-! ## C9: Peek return value on a clamped request -/

/-- Claim C9: if the wait step clamps a Peek request from `n` down to
`ready < n` and the clamped range lies within a single block, the
zero-copy fast path hands out a pointer into that block but returns the
original `n` (membuf.c line 863) — more bytes than the wait validated —
while the cross-block scratch path returns the clamped count copied by
unsafe_fetchData. -/
theorem membuf_C9 (sys : StreamSys) (wentry : FillObs) (wsched : List FillObs) (n : Nat) (r : Int)
    (hwait : safe_WaitFillData sys.i_stream_offset wentry wsched n = some r)
    (hr : 0 < r) (hlt : r.toNat < n) :
    (sys.i_stream_offset + r.toNat ≤ sys.i_prebuffer_offset →
      sys.i_stream_offset % BUFFER_BLOCK_SIZE + r.toNat ≤ BUFFER_BLOCK_SIZE →
      ∀ b : BufferBlock,
        sys.block_array[sys.i_stream_offset / BUFFER_BLOCK_SIZE]? = some (some b) →
        b.i_data_begin ≤ sys.i_stream_offset % BUFFER_BLOCK_SIZE →
        sys.i_stream_offset % BUFFER_BLOCK_SIZE < b.i_data_end →
        b.i_data_end ≤ b.i_block_size →
        Peek sys wentry wsched false true n =
          some ((n : Int), PeekPtr.intoBlock (sys.i_stream_offset / BUFFER_BLOCK_SIZE)
            (sys.i_stream_offset % BUFFER_BLOCK_SIZE)) ∧ r < (n : Int)) ∧
    (BUFFER_BLOCK_SIZE < sys.i_stream_offset % BUFFER_BLOCK_SIZE + r.toNat →
      sys.i_stream_offset + r.toNat ≤ sys.i_prebuffer_offset →
      Covers sys.block_array sys.i_stream_offset sys.i_prebuffer_offset →
      Peek sys wentry wsched false true n = some ((r.toNat : Int), PeekPtr.scratch)) := by
  constructor
  · intro hpre hsb b hget hbeg hend hbs
    unfold Peek
    simp only [hwait]
    rw [if_neg (by omega : ¬ r ≤ 0)]
    rw [if_neg (by simp : ¬(false = true))]
    rw [if_pos hpre, if_pos hsb]
    simp only [hget]
    rw [if_pos ⟨hbeg, hend, hbs⟩]
    exact ⟨rfl, by omega⟩
  · intro hsb hpre hcov
    unfold Peek
    simp only [hwait]
    rw [if_neg (by omega : ¬ r ≤ 0)]
    rw [if_neg (by simp : ¬(false = true))]
    rw [if_pos hpre]
    rw [if_neg (by omega : ¬(sys.i_stream_offset % BUFFER_BLOCK_SIZE + r.toNat ≤
      BUFFER_BLOCK_SIZE))]
    rw [if_pos trivial]
    rw [fetchData_complete sys.block_array sys.i_stream_offset sys.i_prebuffer_offset
      r.toNat (by omega) hpre hcov]

theorem membuf_C9_witness :
    Peek ⟨1000, false, true, false, false, [some ⟨4194304, 0, 4⟩], 0, 4, true⟩
        ⟨4, true, false, false⟩ [] false true 10 =
      some ((10 : Int), PeekPtr.intoBlock 0 0) :=
  ((membuf_C9 ⟨1000, false, true, false, false, [some ⟨4194304, 0, 4⟩], 0, 4, true⟩
      ⟨4, true, false, false⟩ [] 10 4 (by decide) (by decide) (by decide)).1
    (by decide) (by decide) ⟨4194304, 0, 4⟩ (by decide) (by decide) (by decide) (by decide)).1
